import Mathlib

set_option maxRecDepth 8192

deriving instance DecidableEq for Except

/-
Verification of the SQL-migration build-script core (src/plugins/sql/build.rs):
staleness detection (needs_generation), filename parsing and descriptor
construction (generate_migrations_from_directory), the entry-count proxy
(count_migrations_in_file) and artifact generation (write_migrations_rs).

Filesystem effects are made explicit: file existence, modification times and
file contents are passed in as values (`Option` encodes a failing read), and
the artifact writer is modelled by the string it writes.
-/

/-- The `MigrationKind` enum of build.rs. -/
inductive MigrationKind where
  | Up : MigrationKind
  | Down : MigrationKind
  deriving DecidableEq

/-- The `Migration` struct of build.rs: a parsed migration descriptor. -/
structure Migration where
  version : Int
  description : String
  sql : String
  kind : MigrationKind
  deriving DecidableEq

/-- The distinct `io::Error` values produced in build.rs, by construction site:
`dirError` for a failing `read_dir`, `invalidFilenameFormat` for the
"Invalid filename format" error, `notFound` for the "SQL file not found"
read error, `invalidVersion` for the "Invalid version format" parse error. -/
inductive MigErr where
  | dirError : MigErr
  | invalidFilenameFormat : MigErr
  | notFound : MigErr
  | invalidVersion : MigErr
  deriving DecidableEq

/-- One readable directory entry as the build script sees it: its file name,
its modification time (`none` when `metadata()`/`modified()` fails) and its
text content (`none` when `read_to_string` fails). -/
structure FileEntry where
  name : String
  mtime? : Option Nat
  content? : Option String
  deriving DecidableEq

/-- Split a character list at the first occurrence of `sep`; `none` when `sep`
does not occur. -/
def splitFirst (sep : Char) : List Char → Option (List Char × List Char)
  | [] => none
  | c :: rest =>
    if c = sep then some ([], rest)
    else
      match splitFirst sep rest with
      | some (a, b) => some (c :: a, b)
      | none => none

/-- Rust `s.splitn(2, sep).collect::<Vec<_>>()`: one part when `sep` is absent,
otherwise the part before the first `sep` and the whole remainder. -/
def splitnTwo (sep : Char) (s : String) : List String :=
  match splitFirst sep s.data with
  | none => [s]
  | some (a, b) => [⟨a⟩, ⟨b⟩]

/-- Fuel-driven core of Rust `str::trim_end_matches`: repeatedly strip the
suffix `pat`.  Each strip removes at least one character (for nonempty `pat`),
so fuel `s.length` is enough to reach the fixed point. -/
def trimEndCore (pat : List Char) : Nat → List Char → List Char
  | 0, s => s
  | fuel + 1, s =>
    if !pat.isEmpty && pat.isSuffixOf s then
      trimEndCore pat fuel (s.take (s.length - pat.length))
    else s

/-- Rust `s.trim_end_matches(pat)`. -/
def trimEndMatches (pat s : String) : String :=
  ⟨trimEndCore pat.data s.data.length s.data⟩

/-- Accumulate one ASCII decimal digit onto a value, as `from_str` does. -/
def digitStep (a : Nat) (ch : Char) : Nat := 10 * a + (ch.toNat - '0'.toNat)

/-- Rust `s.parse::<i64>()`: an optional single `+`/`-` sign, then one or more
ASCII decimal digits, with the value required to fit in a signed 64-bit
integer; every other input is rejected. -/
def parseI64 (s : String) : Option Int :=
  match s.data with
  | [] => none
  | c :: cs =>
    let signDigits : Int × List Char :=
      if c = '+' then (1, cs) else if c = '-' then (-1, cs) else (1, c :: cs)
    let sign := signDigits.1
    let ds := signDigits.2
    if ds.isEmpty then none
    else if ds.all Char.isDigit then
      let n : Nat := ds.foldl digitStep 0
      let v : Int := sign * n
      if -9223372036854775808 ≤ v ∧ v ≤ 9223372036854775807 then some v else none
    else none

/-- Rust `migration.sql.replace('"', "\\\"")` on the character list: put a
backslash in front of every double-quote character. -/
def escapeQuotesList : List Char → List Char
  | [] => []
  | c :: rest =>
    if c = '\x22' then '\\' :: '\x22' :: escapeQuotesList rest
    else c :: escapeQuotesList rest

/-- The quote-escaping step of `write_migrations_rs`, on strings. -/
def escapeQuotes (s : String) : String := ⟨escapeQuotesList s.data⟩

/-- Spec property "every double-quote is preceded by exactly one backslash":
at every double-quote position `i` the previous character is a backslash and
that backslash is not itself preceded by a backslash. -/
def quotesEscapedOnce (L : List Char) : Prop :=
  ∀ i, i < L.length → L.getD i ' ' = '\x22' →
    1 ≤ i ∧ L.getD (i - 1) ' ' = '\\' ∧ (i = 1 ∨ ¬L.getD (i - 2) ' ' = '\\')

/-- Spec property "the generated text remains syntactically a single string
literal": scanning the emitted literal body left to right, every backslash
starts a two-character escape and no bare double-quote occurs (a bare quote
would terminate the literal early). -/
def validBody : List Char → Bool
  | [] => true
  | c :: rest =>
    if c = '\x22' then false
    else if c = '\\' then
      match rest with
      | [] => false
      | c2 :: rest2 =>
        (c2 == '\x22' || c2 == '\\' || c2 == 'n' || c2 == 't' || c2 == 'r' || c2 == '0')
          && validBody rest2
    else validBody rest

/-- Rust `str::contains` restricted to what build.rs needs: does `needle`
occur as a contiguous run inside the second list? -/
def containsSub (needle : List Char) : List Char → Bool
  | [] => needle.isEmpty
  | c :: rest => needle.isPrefixOf (c :: rest) || containsSub needle rest

/-- Rust `str::lines` as used by `count_migrations_in_file`: split at every
newline character.  (Rust also trims a `'\r'` and drops a final empty segment;
neither can contain the migration marker, so the marker-line count agrees.) -/
def linesOf : List Char → List (List Char)
  | [] => [[]]
  | c :: rest =>
    if c = '\n' then [] :: linesOf rest
    else (c :: (linesOf rest).headI) :: (linesOf rest).tail

/-- The structural marker `count_migrations_in_file` greps for. -/
def migrationMarker : List Char := "Migration \x7b".data

/-- Number of lines of `content` that contain the structural marker. -/
def countMigrationLines (content : List Char) : Nat :=
  ((linesOf content).filter (fun line => containsSub migrationMarker line)).length

/-- `count_migrations_in_file` of build.rs: lines containing `Migration {` in
the file's text, and `0` when the file cannot be read. -/
def count_migrations_in_file (content? : Option String) : Nat :=
  match content? with
  | some content => countMigrationLines content.data
  | none => 0

/-- Split a character list at the last occurrence of `'.'`. -/
def splitLastDot : List Char → Option (List Char × List Char)
  | [] => none
  | c :: rest =>
    match splitLastDot rest with
    | some (a, b) => some (c :: a, b)
    | none => if c = '.' then some ([], rest) else none

/-- Rust `Path::extension` on a file name: the portion after the last dot,
none when there is no dot or when the only dot is the leading character of a
hidden file. -/
def pathExtension (name : String) : Option String :=
  match splitLastDot name.data with
  | some (stem, ext) => if stem.isEmpty then none else some ⟨ext⟩
  | none => none

/-- The `.sql` filter both directory scans in build.rs apply:
`entry.path().extension().map_or(false, |ext| ext == "sql")`. -/
def isSqlFile (name : String) : Bool := pathExtension name == some "sql"

/-- `needs_generation` of build.rs.  `artifact_exists` is
`migrations_rs_path.exists()`, `artifact_content?` the readable text of the
artifact (for `count_migrations_in_file`), `artifact_mtime?` its modification
time (`unwrap_or(UNIX_EPOCH)`, hence `getD 0`), and `dir?` the result of
`read_dir` on the migrations directory (`none` when it fails). -/
def needs_generation (artifact_exists : Bool) (artifact_content? : Option String)
    (artifact_mtime? : Option Nat) (dir? : Option (List FileEntry)) : Bool :=
  if !artifact_exists then true
  else
    let migrations_rs_modified := artifact_mtime?.getD 0
    match dir? with
    | none => true
    | some entries =>
      let sql_files := entries.filter (fun e => isSqlFile e.name)
      if sql_files.isEmpty then true
      else
        let any_newer := sql_files.any (fun e =>
          ((e.mtime?.map (fun t => decide (migrations_rs_modified < t))).getD false))
        let migrations_count := count_migrations_in_file artifact_content?
        (sql_files.length != migrations_count) || any_newer

/-- The per-file body of the iterator in `generate_migrations_from_directory`:
split the file name on the first `'-'` (two parts required), strip a trailing
`.sql` from the second part, read the file's text, then parse the first part
as an `i64`; errors are produced in exactly this order. -/
def parseMigrationFile (filename : String) (content? : Option String) :
    Except MigErr Migration :=
  match splitnTwo '-' filename with
  | [version_str, rest] =>
    let description := trimEndMatches ".sql" rest
    match content? with
    | none => .error .notFound
    | some sql =>
      match parseI64 version_str with
      | none => .error .invalidVersion
      | some version =>
        .ok { version := version, description := description, sql := sql, kind := .Up }
  | _ => .error .invalidFilenameFormat

/-- Rust `collect::<Result<Vec<_>, _>>()`: the first error in order wins,
otherwise the list of all successes. -/
def collectResults : List (Except MigErr Migration) → Except MigErr (List Migration)
  | [] => .ok []
  | x :: rest =>
    match x with
    | .error e => .error e
    | .ok m =>
      match collectResults rest with
      | .error e => .error e
      | .ok ms => .ok (m :: ms)

/-- `generate_migrations_from_directory` of build.rs: filter the readable
directory entries to `.sql` files, parse each, collect first-failure-wins. -/
def generate_migrations_from_directory (dir? : Option (List FileEntry)) :
    Except MigErr (List Migration) :=
  match dir? with
  | none => .error .dirError
  | some entries =>
    collectResults ((entries.filter (fun e => isSqlFile e.name)).map
      (fun e => parseMigrationFile e.name e.content?))

/-- The 59-character `=` ruler of the generated header's comment box. -/
def headerRule : String := ⟨List.replicate 59 '='⟩

/-- The fixed part of the generated header before the timestamp line. -/
def headerPre : String :=
  "/* \n * " ++ headerRule ++ "\n * WARNING: This is an auto-generated file.\n * \n * DO NOT MODIFY THIS FILE MANUALLY.\n * \n * Any changes made to this file will be overwritten \n * the next time it is generated.\n * \n"

/-- The fixed part of the generated header after the timestamp line. -/
def headerPost : String :=
  " * " ++ headerRule ++ "\n */\nuse tauri_plugin_sql::\x7bMigration, MigrationKind\x7d;\n\npub fn migrations() -> Vec<Migration> \x7b\n    vec![\n"

/-- The full generated header, `now` being the `{:?}`-formatted seconds since
the epoch interpolated by `write_migrations_rs`. -/
def migrationsHeader (now : Nat) : String :=
  headerPre ++ " * Generated on: " ++ Nat.repr now ++ " \n" ++ headerPost

/-- One generated vector entry, exactly as `write_migrations_rs` formats it
(`kind` is the hard-coded `MigrationKind::Up` tag). -/
def migrationEntry (m : Migration) : String :=
  "        Migration \x7b\n" ++
    ("            version: " ++ Int.repr m.version ++ ",\n") ++
    ("            description: \x22" ++ m.description ++ "\x22,\n") ++
    ("            sql: \x22" ++ escapeQuotes m.sql ++ "\x22,\n") ++
    "            kind: MigrationKind::Up,\n        \x7d,\n"

/-- The closing `    ]` and brace that `write_migrations_rs` pushes last. -/
def migrationsFooter : String := "    ]\n\x7d\n"

/-- The full text `write_migrations_rs` writes to the artifact: header, one
entry per descriptor in input order (a `push_str` fold), then the footer. -/
def write_migrations_content (now : Nat) (migrations : List Migration) : String :=
  (migrations.foldl (fun content m => content ++ migrationEntry m) (migrationsHeader now))
    ++ migrationsFooter

/- ## Digit-string facts about `Nat.repr` and `Int.repr` -/

lemma digitChar_isDigit (k : Nat) (h : k < 10) : (Nat.digitChar k).isDigit = true := by
  interval_cases k <;> decide

lemma digitChar_toNat (k : Nat) (h : k < 10) : (Nat.digitChar k).toNat = k + 48 := by
  interval_cases k <;> decide

lemma digitStep_digitChar (a k : Nat) (h : k < 10) :
    digitStep a (Nat.digitChar k) = 10 * a + k := by
  unfold digitStep
  rw [digitChar_toNat k h]
  have h0 : '0'.toNat = 48 := rfl
  omega

lemma toDigitsCore_digits (fuel : Nat) : ∀ (n : Nat) (ds : List Char),
    (∀ c ∈ ds, c.isDigit = true) → ∀ c ∈ Nat.toDigitsCore 10 fuel n ds, c.isDigit = true := by
  induction fuel with
  | zero =>
    intro n ds h c hc
    rw [Nat.toDigitsCore] at hc
    exact h c hc
  | succ fuel ih =>
    intro n ds h c hc
    rw [Nat.toDigitsCore] at hc
    have hd : (Nat.digitChar (n % 10)).isDigit = true :=
      digitChar_isDigit _ (Nat.mod_lt _ (by norm_num))
    have hds : ∀ x ∈ Nat.digitChar (n % 10) :: ds, x.isDigit = true := by
      intro x hx
      rcases List.mem_cons.mp hx with h1 | h1
      · subst h1; exact hd
      · exact h x h1
    by_cases hz : n / 10 = 0
    · simp only [hz, if_pos] at hc
      exact hds c hc
    · rw [if_neg hz] at hc
      exact ih (n / 10) _ hds c hc

lemma toDigitsCore_val (fuel : Nat) : ∀ (n : Nat) (ds : List Char), n < 10 ^ fuel →
    (Nat.toDigitsCore 10 fuel n ds).foldl digitStep 0 = ds.foldl digitStep n := by
  induction fuel with
  | zero =>
    intro n ds hn
    have hn0 : n = 0 := by simpa using hn
    subst hn0
    rw [Nat.toDigitsCore]
  | succ fuel ih =>
    intro n ds hn
    rw [Nat.toDigitsCore]
    have h10 : n % 10 < 10 := Nat.mod_lt _ (by norm_num)
    by_cases hz : n / 10 = 0
    · simp only [hz, if_pos]
      have hlt : n < 10 := by omega
      have : n % 10 = n := Nat.mod_eq_of_lt hlt
      simp only [List.foldl_cons, digitStep_digitChar 0 (n % 10) h10]
      rw [this]
      norm_num
    · rw [if_neg hz]
      have hdiv : n / 10 < 10 ^ fuel := by
        have : n < 10 ^ fuel * 10 := by
          have := hn
          rw [pow_succ] at this
          exact this
        exact Nat.div_lt_of_lt_mul (by omega)
      rw [ih (n / 10) _ hdiv]
      simp only [List.foldl_cons, digitStep_digitChar (n / 10) (n % 10) h10]
      rw [Nat.div_add_mod n 10]

lemma toDigitsCore_len (fuel : Nat) : ∀ (n : Nat) (ds : List Char), 1 ≤ fuel →
    ds.length + 1 ≤ (Nat.toDigitsCore 10 fuel n ds).length := by
  induction fuel with
  | zero => intro n ds h; omega
  | succ fuel ih =>
    intro n ds _
    rw [Nat.toDigitsCore]
    by_cases hz : n / 10 = 0
    · simp [hz]
    · rw [if_neg hz]
      by_cases hf : fuel = 0
      · subst hf
        rw [Nat.toDigitsCore]
        simp
      · have := ih (n / 10) (Nat.digitChar (n % 10) :: ds) (by omega)
        simp only [List.length_cons] at this
        omega

lemma natRepr_data (n : Nat) : (Nat.repr n).data = Nat.toDigits 10 n := rfl

lemma natRepr_digits (n : Nat) : ∀ c ∈ (Nat.repr n).data, c.isDigit = true := by
  rw [natRepr_data, Nat.toDigits]
  exact toDigitsCore_digits (n + 1) n [] (by intro c hc; cases hc)

lemma natRepr_val (n : Nat) : (Nat.repr n).data.foldl digitStep 0 = n := by
  rw [natRepr_data, Nat.toDigits]
  have hb : n < 10 ^ (n + 1) := by
    calc n < 10 ^ n := Nat.lt_pow_self (by norm_num) n
    _ ≤ 10 ^ (n + 1) := Nat.pow_le_pow_right (by norm_num) (by omega)
  rw [toDigitsCore_val (n + 1) n [] hb]
  rfl

lemma natRepr_ne_nil (n : Nat) : (Nat.repr n).data ≠ [] := by
  rw [natRepr_data, Nat.toDigits]
  have := toDigitsCore_len (n + 1) n [] (by omega)
  intro h
  rw [h] at this
  simp at this

lemma not_digit_not_mem {l : List Char} (hl : ∀ c ∈ l, c.isDigit = true)
    {d : Char} (hd : d.isDigit = false) : d ∉ l := by
  intro hmem
  have := hl d hmem
  rw [hd] at this
  cases this

lemma intRepr_chars (v : Int) : ∀ c ∈ (Int.repr v).data, c.isDigit = true ∨ c = '-' := by
  cases v with
  | ofNat m =>
    intro c hc
    exact Or.inl (natRepr_digits m c hc)
  | negSucc m =>
    intro c hc
    have : (Int.repr (Int.negSucc m)).data = '-' :: (Nat.repr (m + 1)).data := by
      show (("-" : String) ++ Nat.repr (m + 1)).data = _
      rw [String.data_append]
      rfl
    rw [this] at hc
    rcases List.mem_cons.mp hc with h1 | h1
    · exact Or.inr h1
    · exact Or.inl (natRepr_digits (m + 1) c h1)

/- ## List-splitting and trimming facts -/

lemma isPrefixOf_true_iff : ∀ (p s : List Char), p.isPrefixOf s = true ↔ ∃ t, p ++ t = s := by
  intro p
  induction p with
  | nil => intro s; simp [List.isPrefixOf]
  | cons c p ih =>
    intro s
    cases s with
    | nil => simp [List.isPrefixOf]
    | cons d s' =>
      simp only [List.isPrefixOf, Bool.and_eq_true, beq_iff_eq]
      constructor
      · rintro ⟨rfl, h⟩
        rcases (ih s').mp h with ⟨t, rfl⟩
        exact ⟨t, rfl⟩
      · rintro ⟨t, ht⟩
        injection ht with h1 h2
        subst h1
        exact ⟨rfl, (ih s').mpr ⟨t, h2⟩⟩

lemma isSuffixOf_true_iff (p s : List Char) : p.isSuffixOf s = true ↔ ∃ t, t ++ p = s := by
  show p.reverse.isPrefixOf s.reverse = true ↔ _
  rw [isPrefixOf_true_iff]
  constructor
  · rintro ⟨t, ht⟩
    refine ⟨t.reverse, ?_⟩
    have := congrArg List.reverse ht
    simpa using this
  · rintro ⟨t, rfl⟩
    exact ⟨t.reverse, by simp⟩

lemma isPrefixOf_mem {p s : List Char} (h : p.isPrefixOf s = true) :
    ∀ c ∈ p, c ∈ s := by
  rcases (isPrefixOf_true_iff p s).mp h with ⟨t, rfl⟩
  intro c hc
  exact List.mem_append.mpr (Or.inl hc)

lemma splitFirst_of_not_mem (sep : Char) : ∀ (l : List Char), sep ∉ l →
    splitFirst sep l = none := by
  intro l
  induction l with
  | nil => intro _; rfl
  | cons c rest ih =>
    intro h
    have hc : ¬c = sep := by
      intro hcs; exact h (by simp [hcs])
    have hr : sep ∉ rest := fun hm => h (List.mem_cons.mpr (Or.inr hm))
    simp [splitFirst, hc, ih hr]

lemma splitFirst_append (sep : Char) : ∀ (a b : List Char), sep ∉ a →
    splitFirst sep (a ++ sep :: b) = some (a, b) := by
  intro a
  induction a with
  | nil => intro b _; simp [splitFirst]
  | cons c a' ih =>
    intro b h
    have hc : ¬c = sep := by
      intro hcs; exact h (by simp [hcs])
    have ha : sep ∉ a' := fun hm => h (List.mem_cons.mpr (Or.inr hm))
    simp [splitFirst, hc, ih b ha]

lemma trimEndCore_no_suffix (p : List Char) (fuel : Nat) (s : List Char)
    (h : p.isSuffixOf s = false) : trimEndCore p fuel s = s := by
  cases fuel with
  | zero => rfl
  | succ fuel => simp [trimEndCore, h]

lemma trimEndMatches_append (d : String) (h : ".sql".data.isSuffixOf d.data = false) :
    trimEndMatches ".sql" (d ++ ".sql") = d := by
  obtain ⟨dd⟩ := d
  show (⟨trimEndCore ".sql".data (String.mk dd ++ ".sql").data.length
      (String.mk dd ++ ".sql").data⟩ : String) = _
  have hdata : (String.mk dd ++ ".sql").data = dd ++ ".sql".data := String.data_append _ _
  rw [hdata]
  have hlen : (dd ++ ".sql".data).length = dd.length + 4 := by simp
  rw [hlen]
  have hsuf : ".sql".data.isSuffixOf (dd ++ ".sql".data) = true :=
    (isSuffixOf_true_iff _ _).mpr ⟨dd, rfl⟩
  have hcond : (!".sql".data.isEmpty && ".sql".data.isSuffixOf (dd ++ ".sql".data)) = true := by
    rw [hsuf]
    rfl
  have htake : (dd ++ ".sql".data).take ((dd ++ ".sql".data).length - ".sql".data.length) = dd := by
    have hx : (dd ++ ".sql".data).length - ".sql".data.length = dd.length := by simp
    rw [hx]
    exact List.take_left dd _
  rw [trimEndCore, hcond]
  simp only [if_true]
  rw [htake, trimEndCore_no_suffix _ _ _ h]

/- ## `parseI64` on canonical decimal digit strings -/

lemma parseI64_cons (c : Char) (cs : List Char) :
    parseI64 ⟨c :: cs⟩ =
      (let signDigits : Int × List Char :=
        if c = '+' then (1, cs) else if c = '-' then (-1, cs) else (1, c :: cs);
      let sign := signDigits.1
      let ds := signDigits.2
      if ds.isEmpty then none
      else if ds.all Char.isDigit then
        let n : Nat := ds.foldl digitStep 0
        let v : Int := sign * n
        if -9223372036854775808 ≤ v ∧ v ≤ 9223372036854775807 then some v else none
      else none) := rfl

lemma parseI64_digitList (l : List Char) (hne : l ≠ [])
    (hall : ∀ x ∈ l, x.isDigit = true)
    (hbound : l.foldl digitStep 0 ≤ 9223372036854775807) :
    parseI64 ⟨l⟩ = some ((l.foldl digitStep 0 : Nat) : Int) := by
  obtain ⟨c, rest, rfl⟩ : ∃ c rest, l = c :: rest := by
    cases l with
    | nil => exact absurd rfl hne
    | cons c rest => exact ⟨c, rest, rfl⟩
  have hc : c.isDigit = true := hall c (by simp)
  have hcp : ¬c = '+' := by intro he; subst he; exact absurd hc (by decide)
  have hcm : ¬c = '-' := by intro he; subst he; exact absurd hc (by decide)
  have hallb : (c :: rest).all Char.isDigit = true := List.all_eq_true.mpr hall
  rw [parseI64_cons]
  simp only [if_neg hcp, if_neg hcm, List.isEmpty_cons, hallb, Bool.false_eq_true, if_false,
    if_true]
  have hpos : (0 : Int) ≤ ((c :: rest).foldl digitStep 0 : Nat) := Int.ofNat_nonneg _
  have hcast : (((c :: rest).foldl digitStep 0 : Nat) : Int) ≤ 9223372036854775807 := by
    exact_mod_cast hbound
  rw [if_pos ⟨by omega, by rw [one_mul]; exact hcast⟩, one_mul]

lemma parseI64_natRepr (n : Nat) (h : n ≤ 9223372036854775807) :
    parseI64 ⟨(Nat.repr n).data⟩ = some (n : Int) := by
  have hval : (Nat.repr n).data.foldl digitStep 0 = n := natRepr_val n
  have hres := parseI64_digitList (Nat.repr n).data (natRepr_ne_nil n) (natRepr_digits n)
    (by rw [hval]; exact h)
  rw [hval] at hres
  exact hres

/- ## Line-splitting and marker-count facts -/

lemma linesOf_ne_nil (s : List Char) : linesOf s ≠ [] := by
  cases s with
  | nil => simp [linesOf]
  | cons c rest => by_cases h : c = '\n' <;> simp [linesOf, h]

lemma linesOf_newline_append : ∀ (a b : List Char),
    linesOf (a ++ '\n' :: b) = linesOf a ++ linesOf b := by
  intro a
  induction a with
  | nil => intro b; simp [linesOf]
  | cons c a' ih =>
    intro b
    by_cases h : c = '\n'
    · subst h
      show linesOf ('\n' :: (a' ++ '\n' :: b)) = linesOf ('\n' :: a') ++ linesOf b
      simp only [linesOf, if_pos rfl, ih b]
      rfl
    · obtain ⟨x, xs, hx⟩ : ∃ x xs, linesOf a' = x :: xs := by
        cases hh : linesOf a' with
        | nil => exact absurd hh (linesOf_ne_nil a')
        | cons x xs => exact ⟨x, xs, rfl⟩
      show linesOf (c :: (a' ++ '\n' :: b)) = linesOf (c :: a') ++ linesOf b
      simp only [linesOf, if_neg h, ih b, hx]
      simp

lemma linesOf_no_newline : ∀ (s : List Char), '\n' ∉ s → linesOf s = [s] := by
  intro s
  induction s with
  | nil => intro _; rfl
  | cons c rest ih =>
    intro h
    have hc : ¬c = '\n' := by
      intro hc; exact h (by simp [hc])
    have hr : '\n' ∉ rest := fun hm => h (List.mem_cons.mpr (Or.inr hm))
    simp [linesOf, if_neg hc, ih hr]

lemma cml_newline_append (a b : List Char) :
    countMigrationLines (a ++ '\n' :: b) = countMigrationLines a + countMigrationLines b := by
  unfold countMigrationLines
  rw [linesOf_newline_append, List.filter_append, List.length_append]

lemma getLast?_cons_cons (c d : Char) (l : List Char) :
    (c :: d :: l).getLast? = (d :: l).getLast? := rfl

lemma getLast?_append_right : ∀ (a b : List Char), b ≠ [] →
    (a ++ b).getLast? = b.getLast? := by
  intro a
  induction a with
  | nil => intro b _; rfl
  | cons c a' ih =>
    intro b hb
    have hne : a' ++ b ≠ [] := by
      intro hx
      rcases List.append_eq_nil.mp hx with ⟨_, h2⟩
      exact hb h2
    cases hx : a' ++ b with
    | nil => exact absurd hx hne
    | cons x xs =>
      show (c :: (a' ++ b)).getLast? = b.getLast?
      rw [hx, getLast?_cons_cons, ← hx, ih b hb]

lemma cml_append_of_getLast (a b : List Char) (h : a.getLast? = some '\n') :
    countMigrationLines (a ++ b) = countMigrationLines a + countMigrationLines b := by
  rcases List.eq_nil_or_concat a with rfl | ⟨a', c, rfl⟩
  · simp at h
  · rw [List.concat_eq_append] at h ⊢
    have hc : c = '\n' := by
      rw [List.getLast?_concat] at h
      exact Option.some.inj h
    subst hc
    have h1 : (a' ++ ['\n']) ++ b = a' ++ '\n' :: b := by
      rw [List.append_assoc, List.singleton_append]
    have h2 : countMigrationLines (a' ++ ['\n']) = countMigrationLines a' := by
      have hx : (['\n'] : List Char) = '\n' :: [] := rfl
      rw [hx, cml_newline_append]
      rfl
    rw [h1, cml_newline_append, h2]

lemma mem_of_containsSub (needle : List Char) : ∀ (hay : List Char),
    containsSub needle hay = true → ∀ c ∈ needle, c ∈ hay := by
  intro hay
  induction hay with
  | nil =>
    intro h c hc
    have hn : needle.isEmpty = true := h
    rw [List.isEmpty_iff] at hn
    subst hn
    cases hc
  | cons d rest ih =>
    intro h c hc
    have h' : needle.isPrefixOf (d :: rest) = true ∨ containsSub needle rest = true := by
      have hu : (needle.isPrefixOf (d :: rest) || containsSub needle rest) = true := h
      exact Bool.or_eq_true_iff.mp hu
    rcases h' with h1 | h1
    · exact isPrefixOf_mem h1 c hc
    · exact List.mem_cons.mpr (Or.inr (ih h1 c hc))

lemma mem_of_mem_linesOf : ∀ (s l : List Char), l ∈ linesOf s → ∀ c ∈ l, c ∈ s := by
  intro s
  induction s with
  | nil =>
    intro l hl c hc
    have : l = [] := by simpa [linesOf] using hl
    subst this
    cases hc
  | cons c0 rest ih =>
    intro l hl c hc
    by_cases h0 : c0 = '\n'
    · subst h0
      rw [show linesOf ('\n' :: rest) = [] :: linesOf rest by simp [linesOf]] at hl
      rcases List.mem_cons.mp hl with h1 | h1
      · subst h1; cases hc
      · exact List.mem_cons.mpr (Or.inr (ih l h1 c hc))
    · rw [show linesOf (c0 :: rest) =
          (c0 :: (linesOf rest).headI) :: (linesOf rest).tail by simp [linesOf, h0]] at hl
      rcases List.mem_cons.mp hl with h1 | h1
      · subst h1
        rcases List.mem_cons.mp hc with h2 | h2
        · exact List.mem_cons.mpr (Or.inl h2)
        · have hmem : (linesOf rest).headI ∈ linesOf rest := by
            cases hh : linesOf rest with
            | nil => exact absurd hh (linesOf_ne_nil rest)
            | cons x xs => exact List.mem_cons_self x xs
          exact List.mem_cons.mpr (Or.inr (ih _ hmem c h2))
      · have hmem : l ∈ linesOf rest := List.mem_of_mem_tail h1
        exact List.mem_cons.mpr (Or.inr (ih l hmem c hc))

lemma cml_eq_zero_of_no_brace (cs : List Char) (h : '\x7b' ∉ cs) :
    countMigrationLines cs = 0 := by
  unfold countMigrationLines
  rw [List.length_eq_zero, List.filter_eq_nil_iff]
  intro l hl hcon
  have hb : '\x7b' ∈ l := mem_of_containsSub migrationMarker l hcon '\x7b' (by decide)
  exact h (mem_of_mem_linesOf cs l hl '\x7b' hb)

/- ## Counting marker lines of the generated artifact -/

lemma not_mem_append {c : Char} {a b : List Char} (ha : c ∉ a) (hb : c ∉ b) :
    c ∉ a ++ b := by
  intro h
  rcases List.mem_append.mp h with h1 | h1
  · exact ha h1
  · exact hb h1

lemma natRepr_no_brace (n : Nat) : '\x7b' ∉ (Nat.repr n).data :=
  not_digit_not_mem (natRepr_digits n) (by decide)

lemma intRepr_no_brace (v : Int) : '\x7b' ∉ (Int.repr v).data := by
  intro h
  rcases intRepr_chars v _ h with h1 | h1
  · exact absurd h1 (by decide)
  · exact absurd h1 (by decide)

lemma migrationsHeader_data (now : Nat) : (migrationsHeader now).data
    = headerPre.data ++ ((" * Generated on: ".data ++ ((Nat.repr now).data ++ [' ']))
      ++ '\n' :: headerPost.data) := by
  show (headerPre ++ " * Generated on: " ++ Nat.repr now ++ " \n" ++ headerPost).data = _
  have hnl : (" \n" : String).data = [' ', '\n'] := rfl
  simp only [String.data_append, hnl, List.append_assoc, List.cons_append, List.nil_append,
    List.singleton_append]

lemma cml_header (now : Nat) : countMigrationLines (migrationsHeader now).data = 0 := by
  rw [migrationsHeader_data]
  have hpre : headerPre.data.getLast? = some '\n' := by decide
  rw [cml_append_of_getLast _ _ hpre, cml_newline_append]
  have h1 : countMigrationLines headerPre.data = 0 :=
    cml_eq_zero_of_no_brace _ (by decide)
  have h2 : countMigrationLines (" * Generated on: ".data ++ ((Nat.repr now).data ++ [' '])) = 0 :=
    cml_eq_zero_of_no_brace _
      (not_mem_append (by decide) (not_mem_append (natRepr_no_brace now) (by decide)))
  have h3 : countMigrationLines headerPost.data = 0 := by decide
  rw [h1, h2, h3]

lemma migrationEntry_data (m : Migration) : (migrationEntry m).data
    = "        Migration \x7b".data ++ '\n' ::
      ("            version: ".data ++ ((Int.repr m.version).data
        ++ (",\n            description: \x22".data ++ (m.description.data
        ++ ("\x22,\n            sql: \x22".data ++ ((escapeQuotes m.sql).data
        ++ "\x22,\n            kind: MigrationKind::Up,\n        \x7d,\n".data)))))) := by
  show ("        Migration \x7b\n" ++
      ("            version: " ++ Int.repr m.version ++ ",\n") ++
      ("            description: \x22" ++ m.description ++ "\x22,\n") ++
      ("            sql: \x22" ++ escapeQuotes m.sql ++ "\x22,\n") ++
      "            kind: MigrationKind::Up,\n        \x7d,\n").data = _
  have hfirst : ("        Migration \x7b\n" : String).data
      = "        Migration \x7b".data ++ ['\n'] := by decide
  simp only [String.data_append, hfirst, List.append_assoc, List.cons_append, List.nil_append,
    List.singleton_append]

lemma cml_entry (m : Migration) (hd : '\x7b' ∉ m.description.data)
    (hs : '\x7b' ∉ (escapeQuotes m.sql).data) :
    countMigrationLines (migrationEntry m).data = 1 := by
  rw [migrationEntry_data, cml_newline_append]
  have h1 : countMigrationLines "        Migration \x7b".data = 1 := by decide
  have h2 : countMigrationLines
      ("            version: ".data ++ ((Int.repr m.version).data
        ++ (",\n            description: \x22".data ++ (m.description.data
        ++ ("\x22,\n            sql: \x22".data ++ ((escapeQuotes m.sql).data
        ++ "\x22,\n            kind: MigrationKind::Up,\n        \x7d,\n".data)))))) = 0 :=
    cml_eq_zero_of_no_brace _
      (not_mem_append (by decide) (not_mem_append (intRepr_no_brace m.version)
        (not_mem_append (by decide) (not_mem_append hd
          (not_mem_append (by decide) (not_mem_append hs (by decide)))))))
  rw [h1, h2]

lemma migrationEntry_getLast (m : Migration) :
    (migrationEntry m).data.getLast? = some '\n' := by
  show (("        Migration \x7b\n" ++
      ("            version: " ++ Int.repr m.version ++ ",\n") ++
      ("            description: \x22" ++ m.description ++ "\x22,\n") ++
      ("            sql: \x22" ++ escapeQuotes m.sql ++ "\x22,\n")) ++
      "            kind: MigrationKind::Up,\n        \x7d,\n").data.getLast? = some '\n'
  rw [String.data_append, getLast?_append_right _ _ (by decide)]
  decide

lemma migrationEntry_data_ne_nil (m : Migration) : (migrationEntry m).data ≠ [] := by
  intro h
  have := migrationEntry_getLast m
  rw [h] at this
  cases this

lemma foldl_entry_getLast (ms : List Migration) : ∀ (acc : String),
    acc.data.getLast? = some '\n' →
    ((ms.foldl (fun content m => content ++ migrationEntry m) acc).data).getLast?
      = some '\n' := by
  induction ms with
  | nil => intro acc hacc; exact hacc
  | cons m ms ih =>
    intro acc hacc
    rw [List.foldl_cons]
    refine ih (acc ++ migrationEntry m) ?_
    rw [String.data_append, getLast?_append_right _ _ (migrationEntry_data_ne_nil m)]
    exact migrationEntry_getLast m

lemma cml_foldl (ms : List Migration) : ∀ (acc : String),
    acc.data.getLast? = some '\n' →
    (∀ m ∈ ms, '\x7b' ∉ m.description.data ∧ '\x7b' ∉ (escapeQuotes m.sql).data) →
    countMigrationLines ((ms.foldl (fun content m => content ++ migrationEntry m) acc).data)
      = countMigrationLines acc.data + ms.length := by
  induction ms with
  | nil => intro acc _ _; simp
  | cons m ms ih =>
    intro acc hacc hms
    have hm := hms m (List.mem_cons.mpr (Or.inl rfl))
    have hrest : ∀ x ∈ ms, '\x7b' ∉ x.description.data ∧ '\x7b' ∉ (escapeQuotes x.sql).data :=
      fun x hx => hms x (List.mem_cons.mpr (Or.inr hx))
    rw [List.foldl_cons]
    have hacc' : (acc ++ migrationEntry m).data.getLast? = some '\n' := by
      rw [String.data_append, getLast?_append_right _ _ (migrationEntry_data_ne_nil m)]
      exact migrationEntry_getLast m
    rw [ih (acc ++ migrationEntry m) hacc' hrest, String.data_append,
      cml_append_of_getLast _ _ hacc, cml_entry m hm.1 hm.2]
    simp only [List.length_cons]
    omega

lemma migrationsHeader_getLast (now : Nat) :
    (migrationsHeader now).data.getLast? = some '\n' := by
  show ((headerPre ++ " * Generated on: " ++ Nat.repr now ++ " \n") ++ headerPost).data.getLast?
      = some '\n'
  rw [String.data_append, getLast?_append_right _ _ (by decide)]
  decide

lemma cml_write (now : Nat) (ms : List Migration)
    (h : ∀ m ∈ ms, '\x7b' ∉ m.description.data ∧ '\x7b' ∉ (escapeQuotes m.sql).data) :
    countMigrationLines (write_migrations_content now ms).data = ms.length := by
  unfold write_migrations_content
  rw [String.data_append,
    cml_append_of_getLast _ _ (foldl_entry_getLast ms (migrationsHeader now)
      (migrationsHeader_getLast now)),
    cml_foldl ms (migrationsHeader now) (migrationsHeader_getLast now) h,
    cml_header now]
  have hfoot : countMigrationLines migrationsFooter.data = 0 :=
    cml_eq_zero_of_no_brace _ (by decide)
  rw [hfoot]
  omega

/- ## Quote-escaping facts -/

lemma escapeQuotesList_quote (r : List Char) :
    escapeQuotesList ('\x22' :: r) = '\\' :: '\x22' :: escapeQuotesList r := by
  simp [escapeQuotesList]

lemma escapeQuotesList_other (c : Char) (r : List Char) (h : ¬c = '\x22') :
    escapeQuotesList (c :: r) = c :: escapeQuotesList r := by
  simp [escapeQuotesList, h]

lemma validBody_escape : ∀ (s : List Char), '\\' ∉ s →
    validBody (escapeQuotesList s) = true := by
  intro s
  induction s with
  | nil => intro _; rfl
  | cons c r ih =>
    intro h
    have hc : ¬c = '\\' := by
      intro hx; exact h (by simp [hx])
    have hr : '\\' ∉ r := fun hm => h (List.mem_cons.mpr (Or.inr hm))
    by_cases hq : c = '\x22'
    · subst hq
      rw [escapeQuotesList_quote]
      simp [validBody, ih hr]
    · rw [escapeQuotesList_other c r hq]
      rw [validBody.eq_def]
      simp only []
      rw [if_neg hq, if_neg hc]
      exact ih hr

lemma quotesEscapedOnce_escape : ∀ (s : List Char), '\\' ∉ s →
    quotesEscapedOnce (escapeQuotesList s) := by
  intro s
  induction s with
  | nil =>
    intro _ i hi _
    simp [escapeQuotesList] at hi
  | cons c r ih =>
    intro h
    have hc : ¬c = '\\' := by
      intro hx; exact h (by simp [hx])
    have hr : '\\' ∉ r := fun hm => h (List.mem_cons.mpr (Or.inr hm))
    have ihr := ih hr
    by_cases hq : c = '\x22'
    · subst hq
      rw [escapeQuotesList_quote]
      intro i hi hgq
      rcases i with _ | (_ | i)
      · rw [List.getD_cons_zero] at hgq
        exact absurd hgq (by decide)
      · refine ⟨le_refl 1, rfl, Or.inl rfl⟩
      · -- position i + 2 inside the escaped tail
        simp only [List.length_cons] at hi
        have hi' : i < (escapeQuotesList r).length := by omega
        have hgq' : (escapeQuotesList r).getD i ' ' = '\x22' := by
          simpa [List.getD_cons_succ] using hgq
        obtain ⟨h1, h2, h3⟩ := ihr i hi' hgq'
        obtain ⟨j, rfl⟩ : ∃ j, i = j + 1 := ⟨i - 1, by omega⟩
        refine ⟨by omega, ?_, ?_⟩
        · show ('\\' :: '\x22' :: escapeQuotesList r).getD (j + 2) ' ' = '\\'
          simpa [List.getD_cons_succ] using h2
        · refine Or.inr ?_
          show ¬('\\' :: '\x22' :: escapeQuotesList r).getD (j + 1) ' ' = '\\'
          rcases j with _ | j'
          · intro hx
            rw [List.getD_cons_succ, List.getD_cons_zero] at hx
            exact absurd hx (by decide)
          · rcases h3 with h3 | h3
            · omega
            · intro hx
              apply h3
              simpa [List.getD_cons_succ] using hx
    · rw [escapeQuotesList_other c r hq]
      intro i hi hgq
      rcases i with _ | i
      · exact absurd hgq hq
      · simp only [List.length_cons] at hi
        have hi' : i < (escapeQuotesList r).length := by omega
        have hgq' : (escapeQuotesList r).getD i ' ' = '\x22' := by
          simpa [List.getD_cons_succ] using hgq
        obtain ⟨h1, h2, h3⟩ := ihr i hi' hgq'
        obtain ⟨j, rfl⟩ : ∃ j, i = j + 1 := ⟨i - 1, by omega⟩
        refine ⟨by omega, ?_, ?_⟩
        · show (c :: escapeQuotesList r).getD (j + 1) ' ' = '\\'
          simpa [List.getD_cons_succ] using h2
        · refine Or.inr ?_
          show ¬(c :: escapeQuotesList r).getD j ' ' = '\\'
          rcases j with _ | j'
          · simpa using hc
          · rcases h3 with h3 | h3
            · omega
            · intro hx
              apply h3
              simpa [List.getD_cons_succ] using hx

/- ## First-failure-wins collection -/

lemma collectResults_all_ok : ∀ (l : List (Except MigErr Migration)),
    (∀ x ∈ l, x.isOk = true) →
    ∃ ms, collectResults l = .ok ms ∧ ms.length = l.length := by
  intro l
  induction l with
  | nil => intro _; exact ⟨[], rfl, rfl⟩
  | cons x rest ih =>
    intro h
    have hx := h x (List.mem_cons.mpr (Or.inl rfl))
    cases x with
    | error e => cases hx
    | ok m =>
      obtain ⟨ms, hms, hlen⟩ := ih (fun y hy => h y (List.mem_cons.mpr (Or.inr hy)))
      refine ⟨m :: ms, ?_, by simp [hlen]⟩
      show (match collectResults rest with
        | .error e => (.error e : Except MigErr (List Migration))
        | .ok ms => .ok (m :: ms)) = Except.ok (m :: ms)
      rw [hms]

lemma collectResults_first_error : ∀ (pre : List (Except MigErr Migration))
    (x : Except MigErr Migration) (post : List (Except MigErr Migration)) (err : MigErr),
    (∀ y ∈ pre, y.isOk = true) → x = .error err →
    collectResults (pre ++ x :: post) = .error err := by
  intro pre
  induction pre with
  | nil =>
    intro x post err _ hx
    subst hx
    rfl
  | cons y pre' ih =>
    intro x post err h hx
    have hy := h y (List.mem_cons.mpr (Or.inl rfl))
    cases y with
    | error e => cases hy
    | ok m =>
      have hrec := ih x post err (fun z hz => h z (List.mem_cons.mpr (Or.inr hz))) hx
      show (match collectResults (pre' ++ x :: post) with
        | .error e => (.error e : Except MigErr (List Migration))
        | .ok ms => .ok (m :: ms)) = Except.error err
      rw [hrec]

lemma containsSub_append_right (needle : List Char) : ∀ (a b : List Char),
    containsSub needle b = true → containsSub needle (a ++ b) = true := by
  intro a
  induction a with
  | nil => intro b h; exact h
  | cons c a' ih =>
    intro b h
    show (needle.isPrefixOf (c :: (a' ++ b)) || containsSub needle (a' ++ b)) = true
    rw [ih b h, Bool.or_true]

/- ## Claim theorems -/

/-- C8: when the target artifact file does not exist, `needs_generation`
returns true for every source-directory state (readable or not, empty or
not) and every artifact content and modification time. -/
theorem needs_generation_true_of_absent (artifact_content? : Option String)
    (artifact_mtime? : Option Nat) (dir? : Option (List FileEntry)) :
    needs_generation false artifact_content? artifact_mtime? dir? = true := rfl

/-- C10: with a readable source directory containing no `.sql` file,
`needs_generation` returns true even when the artifact exists (whatever its
text and mtime) — the count/timestamp checks are only reached when at least
one `.sql` file is present. -/
theorem needs_generation_true_of_no_sql_files (artifact_content? : Option String)
    (artifact_mtime? : Option Nat) (entries : List FileEntry)
    (h : (entries.filter (fun e => isSqlFile e.name)).isEmpty = true) :
    needs_generation true artifact_content? artifact_mtime? (some entries) = true := by
  unfold needs_generation
  simp [h]

/-- C10 witness: a directory holding only `readme.txt` forces regeneration
although the artifact exists, counts zero entries, and nothing is newer. -/
theorem needs_generation_true_of_no_sql_files_witness :
    (([⟨"readme.txt", some 1, some "hello"⟩] : List FileEntry).filter
        (fun e => isSqlFile e.name)).isEmpty = true ∧
    needs_generation true (some "") (some 5)
      (some [⟨"readme.txt", some 1, some "hello"⟩]) = true :=
  ⟨by decide, needs_generation_true_of_no_sql_files (some "") (some 5)
    [⟨"readme.txt", some 1, some "hello"⟩] (by decide)⟩

/-- C1 counterexample: the artifact exists and is readable with zero entries,
the directory is readable with zero `.sql` files — so the counts agree and
(vacuously) nothing is newer — yet `needs_generation` returns true, because
the empty-`sql_files` check fires before the count/timestamp comparison. -/
theorem needs_generation_counts_match_counterexample :
    count_migrations_in_file (some "")
      = (([] : List FileEntry).filter (fun e => isSqlFile e.name)).length ∧
    (∀ e ∈ ([] : List FileEntry).filter (fun e => isSqlFile e.name),
      e.mtime?.getD 0 ≤ (some 5 : Option Nat).getD 0) ∧
    needs_generation true (some "") (some 5) (some []) = true := by
  refine ⟨rfl, ?_, rfl⟩
  intro e he
  cases he

/-- C1 (amended): if the artifact exists with readable text, the source
directory is readable and holds at least one `.sql` file, the `.sql` count
equals the artifact's marker count, and no `.sql` file's mtime exceeds the
artifact's (epoch-defaulted) mtime, then `needs_generation` returns false. -/
theorem needs_generation_false_of_counts_match (content : String)
    (artifact_mtime? : Option Nat) (entries : List FileEntry)
    (hne : (entries.filter (fun e => isSqlFile e.name)).isEmpty = false)
    (hcount : (entries.filter (fun e => isSqlFile e.name)).length
      = count_migrations_in_file (some content))
    (hold : ∀ e ∈ entries.filter (fun e => isSqlFile e.name),
      e.mtime?.getD 0 ≤ artifact_mtime?.getD 0) :
    needs_generation true (some content) artifact_mtime? (some entries) = false := by
  unfold needs_generation
  simp only [Bool.not_true, Bool.false_eq_true, if_false, hne, hcount, bne_self_eq_false,
    Bool.false_or]
  rw [List.any_eq_false]
  intro e he
  have h1 := hold e he
  cases hm : e.mtime? with
  | none => simp
  | some t =>
    rw [hm] at h1
    simp only [Option.getD_some] at h1
    simp
    omega

/-- C7: a filename without the separator `'-'` makes the parser fail with the
invalid-format (`InvalidFilename`) error, producing no descriptor. -/
theorem parse_no_separator_invalid_format (filename : String)
    (content? : Option String) (h : '-' ∉ filename.data) :
    parseMigrationFile filename content? = .error .invalidFilenameFormat := by
  unfold parseMigrationFile splitnTwo
  rw [splitFirst_of_not_mem '-' filename.data h]

/-- C7 witness at `init.sql` with readable content. -/
theorem parse_no_separator_invalid_format_witness :
    '-' ∉ ("init.sql" : String).data ∧
    parseMigrationFile "init.sql" (some "CREATE TABLE t;")
      = .error .invalidFilenameFormat :=
  ⟨by decide, parse_no_separator_invalid_format "init.sql" (some "CREATE TABLE t;")
    (by decide)⟩

/-- C3 counterexample: `x-a.sql` contains the separator and its prefix `x` is
non-numeric, but with unreadable content the parser fails with `notFound`,
not `invalidVersion`: the code reads the file before parsing the version,
contrary to the spec's stated order. -/
theorem parse_unreadable_nonnumeric_counterexample :
    splitnTwo '-' "x-a.sql" = ["x", "a.sql"] ∧ parseI64 "x" = none ∧
    parseMigrationFile "x-a.sql" none = .error .notFound ∧
    parseMigrationFile "x-a.sql" none ≠ .error .invalidVersion :=
  ⟨by decide, by decide, by decide, by decide⟩

/-- C3 (amended): when the filename splits into two parts, the prefix does
not parse as an i64, and the file's content is readable, parsing fails with
`invalidVersion`.  (With unreadable content the read error wins instead.) -/
theorem parse_invalid_version_of_readable (filename content p rest : String)
    (hsplit : splitnTwo '-' filename = [p, rest])
    (hp : parseI64 p = none) :
    parseMigrationFile filename (some content) = .error .invalidVersion := by
  unfold parseMigrationFile
  rw [hsplit]
  simp only []
  rw [hp]

/-- C3 witness: readable `x-a.sql` fails with `invalidVersion`. -/
theorem parse_invalid_version_of_readable_witness :
    parseI64 "x" = none ∧
    parseMigrationFile "x-a.sql" (some "CREATE TABLE t;") = .error .invalidVersion :=
  ⟨by decide, parse_invalid_version_of_readable "x-a.sql" "CREATE TABLE t;" "x" "a.sql"
    (by decide) (by decide)⟩

/-- C1 witness: one `.sql` file, an artifact text with one marker line, and a
file older than the artifact — no regeneration is required. -/
theorem needs_generation_false_of_counts_match_witness :
    needs_generation true (some "        Migration \x7b\n") (some 10)
      (some [⟨"1-init.sql", some 7, some "CREATE TABLE t;"⟩]) = false :=
  needs_generation_false_of_counts_match "        Migration \x7b\n" (some 10)
    [⟨"1-init.sql", some 7, some "CREATE TABLE t;"⟩] (by decide) (by decide) (by decide)

/-- C2 counterexample: `-1-init.sql` is `<v>-<d>.sql` for the signed 64-bit
version `-1` and description `init` with readable content, yet the parser
splits at the sign's own `-`, so it fails with `invalidVersion` instead of
producing the claimed descriptor. -/
theorem parse_negative_version_counterexample :
    Int.repr (-1) ++ "-" ++ "init" ++ ".sql" = "-1-init.sql" ∧
    parseMigrationFile "-1-init.sql" (some "CREATE TABLE t;") = .error .invalidVersion ∧
    parseMigrationFile "-1-init.sql" (some "CREATE TABLE t;")
      ≠ .ok ⟨-1, "init", "CREATE TABLE t;", .Up⟩ :=
  ⟨by decide, by decide, by decide⟩

/-- C2 (amended): for nonnegative versions up to `i64::MAX` rendered in base
10 and descriptions not themselves ending in `.sql`, parsing the filename
`<v>-<d>.sql` with readable content yields version `v`, description `d`,
the file's text as `sql`, and the forward kind.  (A negative `v` fails — the
sign's `-` is taken as the separator — and a `d` ending in `.sql` is
additionally stripped by `trim_end_matches`.) -/
theorem parse_valid_filename_ok (v : Int) (d sql : String)
    (h0 : 0 ≤ v) (h1 : v ≤ 9223372036854775807)
    (h2 : ".sql".data.isSuffixOf d.data = false) :
    parseMigrationFile (Int.repr v ++ "-" ++ d ++ ".sql") (some sql)
      = .ok ⟨v, d, sql, .Up⟩ := by
  obtain ⟨m, rfl⟩ : ∃ m : Nat, v = (m : Int) := ⟨v.toNat, (Int.toNat_of_nonneg h0).symm⟩
  have hm : m ≤ 9223372036854775807 := by exact_mod_cast h1
  have hrepr : Int.repr (m : Int) = Nat.repr m := rfl
  have hsep : '-' ∉ (Nat.repr m).data := not_digit_not_mem (natRepr_digits m) (by decide)
  have hdata : (Int.repr (m : Int) ++ "-" ++ d ++ ".sql").data
      = (Nat.repr m).data ++ '-' :: (d.data ++ ".sql".data) := by
    rw [hrepr]
    simp [String.data_append]
  unfold parseMigrationFile splitnTwo
  rw [hdata, splitFirst_append '-' _ _ hsep]
  simp only []
  have hmk : (⟨d.data ++ ".sql".data⟩ : String) = d ++ ".sql" := by
    rw [← String.data_append]
  rw [hmk, trimEndMatches_append d h2, parseI64_natRepr m hm]

/-- C2 witness: `1-init.sql` with readable content parses to the expected
descriptor. -/
theorem parse_valid_filename_ok_witness :
    (0 : Int) ≤ 1 ∧ (1 : Int) ≤ 9223372036854775807 ∧
    ".sql".data.isSuffixOf ("init" : String).data = false ∧
    parseMigrationFile (Int.repr 1 ++ "-" ++ "init" ++ ".sql") (some "CREATE TABLE t;")
      = .ok ⟨1, "init", "CREATE TABLE t;", .Up⟩ :=
  ⟨by decide, by decide, by decide,
    parse_valid_filename_ok 1 "init" "CREATE TABLE t;" (by decide) (by decide) (by decide)⟩

/-- C9: every descriptor built by the parser carries the forward tag
`MigrationKind.Up`, and every generated entry text contains the hard-coded
`kind: MigrationKind::Up,` line, for all inputs. -/
theorem migration_kind_always_up :
    (∀ (filename : String) (content? : Option String) (m : Migration),
      parseMigrationFile filename content? = .ok m → m.kind = .Up) ∧
    (∀ m : Migration,
      containsSub "kind: MigrationKind::Up,".data (migrationEntry m).data = true) := by
  constructor
  · intro filename content? m h
    unfold parseMigrationFile at h
    split at h
    · split at h
      · cases h
      · split at h
        · cases h
        · rw [Except.ok.injEq] at h
          rw [← h]
    · cases h
  · intro m
    rw [migrationEntry_data]
    refine containsSub_append_right _ "        Migration \x7b".data _ ?_
    refine containsSub_append_right _ ['\n'] _ ?_
    refine containsSub_append_right _ "            version: ".data _ ?_
    refine containsSub_append_right _ (Int.repr m.version).data _ ?_
    refine containsSub_append_right _ ",\n            description: \x22".data _ ?_
    refine containsSub_append_right _ m.description.data _ ?_
    refine containsSub_append_right _ "\x22,\n            sql: \x22".data _ ?_
    refine containsSub_append_right _ (escapeQuotes m.sql).data _ ?_
    decide

/-- C9 witness: a parsed descriptor at a concrete file has the forward kind. -/
theorem migration_kind_always_up_witness :
    parseMigrationFile "1-init.sql" (some "CREATE TABLE t;")
      = .ok ⟨1, "init", "CREATE TABLE t;", .Up⟩ ∧
    (⟨1, "init", "CREATE TABLE t;", .Up⟩ : Migration).kind = .Up ∧
    containsSub "kind: MigrationKind::Up,".data
      (migrationEntry ⟨1, "init", "CREATE TABLE t;", .Up⟩).data = true :=
  ⟨by decide,
    migration_kind_always_up.1 "1-init.sql" (some "CREATE TABLE t;") _ (by decide),
    migration_kind_always_up.2 ⟨1, "init", "CREATE TABLE t;", .Up⟩⟩

/-- C6: generation aborts with the error of the first failing `.sql` file in
iteration order and produces no list; when every `.sql` file parses it
returns one descriptor per file. -/
theorem generate_first_failure_wins (entries : List FileEntry) :
    (∀ (pre : List FileEntry) (bad : FileEntry) (post : List FileEntry) (err : MigErr),
      entries.filter (fun e => isSqlFile e.name) = pre ++ bad :: post →
      (∀ e ∈ pre, (parseMigrationFile e.name e.content?).isOk = true) →
      parseMigrationFile bad.name bad.content? = .error err →
      generate_migrations_from_directory (some entries) = .error err) ∧
    ((∀ e ∈ entries.filter (fun e => isSqlFile e.name),
        (parseMigrationFile e.name e.content?).isOk = true) →
      ∃ ms, generate_migrations_from_directory (some entries) = .ok ms ∧
        ms.length = (entries.filter (fun e => isSqlFile e.name)).length) := by
  constructor
  · intro pre bad post err hsplit hpre hbad
    show collectResults ((entries.filter (fun e => isSqlFile e.name)).map
      (fun e => parseMigrationFile e.name e.content?)) = .error err
    rw [hsplit, List.map_append, List.map_cons]
    refine collectResults_first_error _ _ _ err ?_ hbad
    intro y hy
    rcases List.mem_map.mp hy with ⟨e, he, rfl⟩
    exact hpre e he
  · intro hall
    obtain ⟨ms, hms, hlen⟩ := collectResults_all_ok
      ((entries.filter (fun e => isSqlFile e.name)).map
        (fun e => parseMigrationFile e.name e.content?))
      (by
        intro y hy
        rcases List.mem_map.mp hy with ⟨e, he, rfl⟩
        exact hall e he)
    refine ⟨ms, hms, ?_⟩
    rw [hlen, List.length_map]

/-- C6 witness: the second candidate (`bad.sql`, no separator) fails and its
invalid-format error is the overall result, despite a later empty tail. -/
theorem generate_first_failure_wins_witness :
    generate_migrations_from_directory
      (some [⟨"1-a.sql", some 0, some "x"⟩, ⟨"bad.sql", none, some "y"⟩])
      = .error .invalidFilenameFormat :=
  (generate_first_failure_wins [⟨"1-a.sql", some 0, some "x"⟩, ⟨"bad.sql", none, some "y"⟩]).1
    [⟨"1-a.sql", some 0, some "x"⟩] ⟨"bad.sql", none, some "y"⟩ [] .invalidFilenameFormat
    (by decide) (by decide) (by decide)

/-- C4 counterexample: for the SQL body backslash-then-quote, the generator
emits backslash-backslash-quote: the double-quote is preceded by two
backslashes, not one, and the text no longer reads as a single string
literal (the doubled backslash closes its escape and the quote is bare). -/
theorem escape_backslash_quote_counterexample :
    '\x22' ∈ ("\\\x22" : String).data ∧
    escapeQuotesList ("\\\x22" : String).data = ['\\', '\\', '\x22'] ∧
    ¬quotesEscapedOnce (escapeQuotesList ("\\\x22" : String).data) ∧
    validBody (escapeQuotesList ("\\\x22" : String).data) = false := by
  refine ⟨by decide, by decide, ?_, by decide⟩
  intro hq
  obtain ⟨-, -, h3⟩ := hq 2 (by decide) (by decide)
  rcases h3 with h3 | h3
  · omega
  · exact h3 (by decide)

/-- C4 (amended): for every SQL body containing no backslash, the escaped
body has each double-quote preceded by exactly one backslash and remains a
syntactically valid single string literal.  (Bodies with backslashes break
both parts, because the generator escapes only quotes.) -/
theorem escape_quotes_ok_of_no_backslash (s : String) (h : '\\' ∉ s.data) :
    quotesEscapedOnce (escapeQuotes s).data ∧ validBody (escapeQuotes s).data = true :=
  ⟨quotesEscapedOnce_escape s.data h, validBody_escape s.data h⟩

/-- C4 witness at the backslash-free body `a"b`. -/
theorem escape_quotes_ok_of_no_backslash_witness :
    '\\' ∉ ("a\x22b" : String).data ∧
    (quotesEscapedOnce (escapeQuotes "a\x22b").data ∧
      validBody (escapeQuotes "a\x22b").data = true) :=
  ⟨by decide, escape_quotes_ok_of_no_backslash "a\x22b" (by decide)⟩

/-- C5 counterexample: one descriptor whose description contains the marker
text `Migration {` generates an artifact whose description line also counts,
so the round-trip count is 2 for a single descriptor. -/
theorem count_roundtrip_marker_counterexample :
    count_migrations_in_file
      (some (write_migrations_content 0 [⟨1, "Migration \x7b", "", .Up⟩])) = 2 ∧
    ([(⟨1, "Migration \x7b", "", .Up⟩ : Migration)]).length = 1 :=
  ⟨by decide, rfl⟩

/-- C5 (amended): re-counting marker lines of the generated artifact yields
exactly the descriptor count whenever no description and no escaped SQL body
contains a left-brace character (so in particular none contains the marker
text); the generation timestamp never affects the count. -/
theorem count_roundtrip_of_no_brace (now : Nat) (ms : List Migration)
    (h : ∀ m ∈ ms, '\x7b' ∉ m.description.data ∧ '\x7b' ∉ (escapeQuotes m.sql).data) :
    count_migrations_in_file (some (write_migrations_content now ms)) = ms.length :=
  cml_write now ms h

/-- C5 witness: two plain descriptors round-trip to a count of 2. -/
theorem count_roundtrip_of_no_brace_witness :
    (∀ m ∈ ([⟨1, "init", "CREATE TABLE t;", .Up⟩,
        ⟨2, "add_col", "ALTER TABLE \x22t\x22;", .Up⟩] : List Migration),
      '\x7b' ∉ m.description.data ∧ '\x7b' ∉ (escapeQuotes m.sql).data) ∧
    count_migrations_in_file (some (write_migrations_content 1700000000
      [⟨1, "init", "CREATE TABLE t;", .Up⟩, ⟨2, "add_col", "ALTER TABLE \x22t\x22;", .Up⟩]))
      = 2 :=
  ⟨by decide, count_roundtrip_of_no_brace 1700000000
    [⟨1, "init", "CREATE TABLE t;", .Up⟩, ⟨2, "add_col", "ALTER TABLE \x22t\x22;", .Up⟩]
    (by decide)⟩
